import Mathlib

/-
Verification development for the schema-extraction and diagram-rendering
pipeline (scripts/project/extract_database_schema.py and
scripts/project/generate_erd.py).

The Python code is shallowly embedded: regular-expression scanning is
modelled by a small backtracking matcher with the same leftmost-first,
greedy semantics as the CPython re module, restricted to the constructs
the program uses (literals, character classes, greedy star, alternation,
capture groups).  Character classes \w and \s are modelled over their
ASCII portion, which covers the identifier and whitespace characters the
scanned source dialects use.  The filesystem is modelled as a list of
files, each a path (segments relative to the scanned root) together with
an optional content; a missing content models a file whose open or
decode raises an OSError.  Python exceptions are modelled with Except.
-/

set_option maxHeartbeats 4000000
set_option maxRecDepth 4096

namespace Erd

/-! ## Character classes and basic string helpers -/

/-- ASCII portion of the Python regex class \w. -/
def isWordChar (c : Char) : Bool := c.isAlpha || c.isDigit || c == '_'

/-- Left brace character, written by code point to keep it out of string literals. -/
def braceL : Char := Char.ofNat 123

/-- Right brace character. -/
def braceR : Char := Char.ofNat 125

/-- ASCII portion of the Python regex class \s. -/
def isWsChar (c : Char) : Bool :=
  c == ' ' || c == '\t' || c == '\n' || c == '\r' || c == Char.ofNat 11 || c == Char.ofNat 12

/-- The regex metacharacter dot: any character except a newline. -/
def isDotChar (c : Char) : Bool := !(c == '\n')

/-- Quote characters accepted by the db_table pattern. -/
def isQuoteChar (c : Char) : Bool := c == Char.ofNat 39 || c == '"'

/-- Boolean prefix test on character lists. -/
def hasPrefixCh : List Char → List Char → Bool
  | [], _ => true
  | _ :: _, [] => false
  | c :: p, d :: s => c == d && hasPrefixCh p s

/-- Boolean substring test, the Python expression sub in s. -/
def hasSubCh (sub : List Char) : List Char → Bool
  | [] => sub.isEmpty
  | c :: t => hasPrefixCh sub (c :: t) || hasSubCh sub t

/-- Substring test on strings. -/
def containsSub (s sub : String) : Bool := hasSubCh sub.data s.data

/-- Index of the first occurrence of a substring, used to talk about
declaration order inside a source text. -/
def subIdx (sub : List Char) : List Char → Option Nat
  | [] => if sub.isEmpty then some 0 else none
  | c :: t => if hasPrefixCh sub (c :: t) then some 0 else (subIdx sub t).map (· + 1)

/-- First-occurrence index of a substring of a string. -/
def subIdxS (s sub : String) : Option Nat := subIdx sub.data s.data

/-- Strip the literal prefix, the worker behind regex literal matching. -/
def dropLit : List Char → List Char → Option (List Char)
  | [], s => some s
  | _ :: _, [] => none
  | c :: p, d :: s => if c == d then dropLit p s else none

/-- Split a character list at newline characters; Python str.split over a
single newline separator. -/
def splitCh : List Char → List (List Char)
  | [] => [[]]
  | c :: t =>
    if c == '\n' then [] :: splitCh t
    else
      match splitCh t with
      | [] => [[c]]
      | h :: r => (c :: h) :: r

/-- Python str.split on a newline. -/
def splitNl (s : String) : List String := (splitCh s.data).map String.mk

/-- Python str.strip applied to a character list. -/
def stripCh (l : List Char) : List Char :=
  ((l.dropWhile isWsChar).reverse.dropWhile isWsChar).reverse

/-- Python str.strip. -/
def pstrip (s : String) : String := String.mk (stripCh s.data)

/-- Boolean prefix test on strings, Python str.startswith. -/
def startsWithS (s p : String) : Bool := hasPrefixCh p.data s.data

/-- Python str.lower, character by character; agrees with the CPython
behavior on the ASCII identifiers the extractors handle. -/
def pyLower (s : String) : String := String.mk (s.data.map Char.toLower)

/-- Python separator.join over a list of strings. -/
def joinWith (sep : String) : List String → String
  | [] => ""
  | [x] => x
  | x :: y :: rest => x ++ sep ++ joinWith sep (y :: rest)

/-- Join path segments for error messages. -/
def pathStr (p : List String) : String := joinWith "/" p

/-! ## A small backtracking regex matcher

The constructors mirror the regex constructs appearing in the Python
source; matching is leftmost-first with greedy, backtracking star and
alternation, exactly the CPython re search order for these constructs. -/

/-- Regex syntax used by the extraction scripts. -/
inductive Re where
  | eps : Re
  | chr : (Char → Bool) → Re
  | str : String → Re
  | seq : Re → Re → Re
  | alt : Re → Re → Re
  | star : Re → Re
  | cap : Nat → Re → Re

/-- One or more repetitions, the regex plus operator. -/
def rePlus (r : Re) : Re := Re.seq r (Re.star r)

/-- Exactly n repetitions. -/
def reRep : Nat → Re → Re
  | 0, _ => Re.eps
  | n + 1, r => Re.seq r (reRep n r)

/-- Single-character literal. -/
def reChrEq (c : Char) : Re := Re.chr (fun d => d == c)

/-- Captured groups of a match, most recent first. -/
abbrev Groups := List (Nat × String)

/-- Backtracking matcher in continuation style.  The continuation receives
the remaining input and the groups captured so far; returning none makes
the matcher backtrack into earlier alternatives, which reproduces the
backtracking search order of the CPython engine.  The star rule tries the
longest expansion first (greedy) and refuses empty progress of its body. -/
def mre : Nat → Re → List Char → Groups →
    (List Char → Groups → Option (List Char × Groups)) → Option (List Char × Groups)
  | 0, _, _, _, _ => none
  | Nat.succ _, Re.eps, s, g, k => k s g
  | Nat.succ _, Re.chr _, [], _, _ => none
  | Nat.succ _, Re.chr p, c :: t, g, k => if p c then k t g else none
  | Nat.succ _, Re.str lit, s, g, k =>
    match dropLit lit.data s with
    | some rest => k rest g
    | none => none
  | Nat.succ fuel, Re.seq a b, s, g, k =>
    mre fuel a s g (fun s1 g1 => mre fuel b s1 g1 k)
  | Nat.succ fuel, Re.alt a b, s, g, k =>
    match mre fuel a s g k with
    | some r => some r
    | none => mre fuel b s g k
  | Nat.succ fuel, Re.star a, s, g, k =>
    match mre fuel a s g (fun s1 g1 =>
        if s1.length == s.length then none else mre fuel (Re.star a) s1 g1 k) with
    | some r => some r
    | none => k s g
  | Nat.succ fuel, Re.cap n a, s, g, k =>
    mre fuel a s g (fun s1 g1 =>
      k s1 ((n, String.mk (s.take (s.length - s1.length))) :: g1))

/-- Result of one regex match: the matched text (group 0) and the
captured groups. -/
structure MatchRes where
  matched : String
  groups : Groups
deriving DecidableEq

/-- Fuel bound: recursion depth of the matcher is bounded by the pattern
size plus the number of star iterations, both linear in the input. -/
def mreFuel (s : List Char) : Nat := 8 * s.length + 400

/-- Attempt a match anchored at the start of the input; Python re.match.
Also returns the remaining input for the find-all scanner. -/
def reMatchAt (r : Re) (s : List Char) : Option (MatchRes × List Char) :=
  match mre (mreFuel s) r s [] (fun rest g => some (rest, g)) with
  | none => none
  | some (rest, g) => some (⟨String.mk (s.take (s.length - rest.length)), g⟩, rest)

/-- Anchored match on a string. -/
def reMatchS (r : Re) (s : String) : Option MatchRes := (reMatchAt r s.data).map (·.1)

/-- Scan for the leftmost match; Python re.search. -/
def reSearchAux (r : Re) : Nat → List Char → Option MatchRes
  | _, [] => (reMatchAt r []).map (·.1)
  | 0, _ => none
  | fuel + 1, c :: t =>
    match reMatchAt r (c :: t) with
    | some (m, _) => some m
    | none => reSearchAux r fuel t

/-- Python re.search on a string. -/
def reSearch (r : Re) (s : String) : Option MatchRes := reSearchAux r s.data.length s.data

/-- Non-overlapping left-to-right scan; Python re.finditer.  After an
empty match the scan advances one character, as CPython does. -/
def reFinditerAux (r : Re) : Nat → List Char → List MatchRes
  | 0, _ => []
  | fuel + 1, s =>
    match reMatchAt r s with
    | some (m, rest) =>
      if rest.length == s.length then
        match rest with
        | [] => [m]
        | _ :: t => m :: reFinditerAux r fuel t
      else m :: reFinditerAux r fuel rest
    | none =>
      match s with
      | [] => []
      | _ :: t => reFinditerAux r fuel t

/-- Python re.finditer on a string. -/
def reFinditer (r : Re) (s : String) : List MatchRes :=
  reFinditerAux r (s.data.length + 1) s.data

/-- Captured group lookup; yields the empty string when the group is
absent, which never happens for the groups the scripts read. -/
def groupD (g : Groups) (n : Nat) : String :=
  ((g.find? (fun p => p.1 == n)).map (·.2)).getD ""

/-! ## Data model (dataclasses Field, Entity, SchemaReport) -/

/-- Dataclass Field of extract_database_schema.py. -/
structure Field where
  name : String
  type : String
  nullable : Bool := true
  primary_key : Bool := false
  foreign_key : Option String := none
  unique : Bool := false
  default : Option String := none
deriving DecidableEq

/-- Relationship dictionary built by extract_schema; keys from, to, type,
field.  The Python key from is a Lean keyword, hence the longer names. -/
structure Rel where
  from_entity : String
  to_entity : String
  type : String
  field : String
deriving DecidableEq

/-- Dataclass Entity.  The relationships attribute is declared by the
dataclass but never populated by any extractor. -/
structure Entity where
  name : String
  table_name : String
  fields : List Field := []
  indexes : List String := []
  relationships : List Rel := []
deriving DecidableEq

/-- Dataclass SchemaReport. -/
structure SchemaReport where
  entities : List Entity
  relationships : List Rel
  database_type : Option String := none
  orm_framework : Option String := none
deriving DecidableEq

/-! ## Regex patterns of the two dialect extractors -/

/-- Body-line alternative of the Django class pattern. -/
def bodyLineRe : Re :=
  Re.seq (reRep 4 (Re.chr isWsChar)) (Re.seq (Re.star (Re.chr isDotChar)) (reChrEq '\n'))

/-- Django class pattern of parse_django_models. -/
def classPattern : Re :=
  Re.seq (Re.str "class")
  (Re.seq (rePlus (Re.chr isWsChar))
  (Re.seq (Re.cap 1 (rePlus (Re.chr isWordChar)))
  (Re.seq (Re.str "(")
  (Re.seq (Re.star (Re.chr isDotChar))
  (Re.seq (Re.str "models.Model")
  (Re.seq (Re.star (Re.chr isDotChar))
  (Re.seq (Re.str "):")
  (Re.seq (Re.star (Re.chr isWsChar))
  (Re.seq (reChrEq '\n')
  (Re.cap 2 (Re.star bodyLineRe)))))))))))

/-- Meta db_table pattern of parse_django_models. -/
def metaPattern : Re :=
  Re.seq (Re.str "class")
  (Re.seq (rePlus (Re.chr isWsChar))
  (Re.seq (Re.str "Meta:")
  (Re.seq (Re.star (Re.chr isDotChar))
  (Re.seq (Re.str "db_table")
  (Re.seq (Re.star (Re.chr isWsChar))
  (Re.seq (Re.str "=")
  (Re.seq (Re.star (Re.chr isWsChar))
  (Re.seq (Re.chr isQuoteChar)
  (Re.seq (Re.cap 1 (rePlus (Re.chr isWordChar)))
  (Re.chr isQuoteChar))))))))))

/-- Field-declaration pattern of parse_django_models for one model field
constructor name. -/
def djangoFieldRe (kind : String) : Re :=
  Re.seq (Re.cap 1 (rePlus (Re.chr isWordChar)))
  (Re.seq (Re.star (Re.chr isWsChar))
  (Re.seq (Re.str "=")
  (Re.seq (Re.star (Re.chr isWsChar))
  (Re.str ("models." ++ kind)))))

/-- The field_patterns table of parse_django_models, in source order. -/
def field_patterns : List (Re × String) :=
  [(djangoFieldRe "CharField", "string"),
   (djangoFieldRe "TextField", "text"),
   (djangoFieldRe "IntegerField", "integer"),
   (djangoFieldRe "BooleanField", "boolean"),
   (djangoFieldRe "DateTimeField", "datetime"),
   (djangoFieldRe "DateField", "date"),
   (djangoFieldRe "ForeignKey", "foreign_key")]

/-- Prisma model pattern of parse_prisma_schema. -/
def modelPattern : Re :=
  Re.seq (Re.str "model")
  (Re.seq (rePlus (Re.chr isWsChar))
  (Re.seq (Re.cap 1 (rePlus (Re.chr isWordChar)))
  (Re.seq (Re.star (Re.chr isWsChar))
  (Re.seq (reChrEq braceL)
  (Re.seq (Re.cap 2 (rePlus (Re.chr (fun c => !(c == braceR)))))
  (reChrEq braceR))))))

/-- Prisma field pattern of parse_prisma_schema. -/
def prismaFieldPat : Re :=
  Re.seq (Re.cap 1 (rePlus (Re.chr isWordChar)))
  (Re.seq (rePlus (Re.chr isWsChar))
  (Re.seq (Re.cap 2 (rePlus (Re.chr isWordChar)))
  (Re.seq (Re.cap 3 (Re.alt (reChrEq '?') Re.eps))
  (Re.seq (Re.star (Re.chr isWsChar))
  (Re.cap 4 (Re.star (Re.chr isDotChar)))))))

/-! ## Django extractor (parse_django_models) -/

/-- One match of the Django class pattern: captured name and body. -/
structure ClassMatch where
  name : String
  body : String
deriving DecidableEq

/-- All class matches of a file content, in scan order. -/
def classMatches (content : String) : List ClassMatch :=
  (reFinditer classPattern content).map fun m => ⟨groupD m.groups 1, groupD m.groups 2⟩

/-- Field object built from one field-pattern match.  The source checks
primary_key=True and null=False against group 0 of the match, and never
assigns the foreign_key attribute. -/
def djangoFieldOfMatch (ftype : String) (m : MatchRes) : Field :=
  { name := groupD m.groups 1
    type := ftype
    primary_key := containsSub m.matched "primary_key=True"
    nullable := !(containsSub m.matched "null=False") }

/-- The nested field-extraction loops of parse_django_models: outer loop
over the pattern table, inner loop over the matches in the class body. -/
def djangoFields (body : String) : List Field :=
  field_patterns.foldl
    (fun acc pt => acc ++ (reFinditer pt.1 body).map (djangoFieldOfMatch pt.2)) []

/-- Table-name resolution of parse_django_models: the Meta db_table
search result if any, else the lower-cased class name with suffix s. -/
def djangoTableName (name body : String) : String :=
  match reSearch metaPattern body with
  | some m => groupD m.groups 1
  | none => pyLower name ++ "s"

/-- Entity built from one class match. -/
def djangoEntity (cm : ClassMatch) : Entity :=
  { name := cm.name
    table_name := djangoTableName cm.name cm.body
    fields := djangoFields cm.body }

/-- parse_django_models on a file content. -/
def parse_django_models (content : String) : List Entity :=
  (classMatches content).map djangoEntity

/-! ## Prisma extractor (parse_prisma_schema) -/

/-- One match of the Prisma model pattern. -/
structure ModelMatch where
  name : String
  body : String
deriving DecidableEq

/-- All model matches of a file content, in scan order. -/
def modelMatches (content : String) : List ModelMatch :=
  (reFinditer modelPattern content).map fun m => ⟨groupD m.groups 1, groupD m.groups 2⟩

/-- Per-line field recognition of parse_prisma_schema: strip the line,
skip blank, block-attribute and comment lines, then apply the anchored
field pattern and read name, type, optional marker and attributes. -/
def prismaFieldOfLine (line : String) : Option Field :=
  let l := pstrip line
  if l = "" then none
  else if startsWithS l "@@" then none
  else if startsWithS l "//" then none
  else
    match reMatchS prismaFieldPat l with
    | none => none
    | some m =>
      let ftype := groupD m.groups 2
      let attrs := groupD m.groups 4
      some { name := groupD m.groups 1
             type := ftype
             nullable := groupD m.groups 3 == "?"
             primary_key := containsSub attrs "@id"
             unique := containsSub attrs "@unique"
             foreign_key := if containsSub attrs "@relation" then some ftype else none }

/-- The line loop of parse_prisma_schema appending recognized fields. -/
def prismaFields (body : String) : List Field :=
  (splitNl (pstrip body)).foldl
    (fun acc line =>
      match prismaFieldOfLine line with
      | some f => acc ++ [f]
      | none => acc) []

/-- Entity built from one model match; the table name is the lower-cased
model name, with no suffix. -/
def prismaEntity (mm : ModelMatch) : Entity :=
  { name := mm.name
    table_name := pyLower mm.name
    fields := prismaFields mm.body }

/-- parse_prisma_schema on a file content. -/
def parse_prisma_schema (content : String) : List Entity :=
  (modelMatches content).map prismaEntity

/-! ## Source locator (find_schema_files) -/

/-- One file of the scanned tree: its path as segments relative to the
root (final segment is the file name) and its content; none models a
file whose open or decode raises.  The scanned root directory itself is
assumed to contain no vendored segment in its own absolute path. -/
structure SrcFile where
  path : List String
  content : Option String
deriving DecidableEq

/-- The scanned tree, in traversal order. -/
abbrev FileSystem := List SrcFile

/-- Last element of a segment list, empty for the empty list. -/
def lastSeg : List String → String
  | [] => ""
  | [x] => x
  | _ :: y :: rest => lastSeg (y :: rest)

/-- Final path segment, the file name. -/
def fileName (f : SrcFile) : String := lastSeg f.path

/-- Segment before the file name, used for the Knex migrations rule. -/
def parentSeg (f : SrcFile) : String := lastSeg f.path.dropLast

/-- Result dictionary of find_schema_files, one list per dialect key.
The source drops keys whose list is empty; dialect presence below is
therefore a non-empty list. -/
structure SchemaFiles where
  django_models : List SrcFile
  sqlalchemy_models : List SrcFile
  prisma_schema : List SrcFile
  rails_migrations : List SrcFile
  knex_migrations : List SrcFile
  sql_schema : List SrcFile
deriving DecidableEq

/-- Python str.endswith. -/
def endsWithS (s suf : String) : Bool := hasPrefixCh suf.data.reverse s.data.reverse

/-- find_schema_files: filename and path conventions per dialect.  Only
the Django rule excludes any directory segment, and it excludes exactly
the segments migrations and venv; the other rules apply no exclusion. -/
def find_schema_files (fs : FileSystem) : SchemaFiles :=
  { django_models := fs.filter fun f =>
      fileName f == "models.py"
      && !(f.path.contains "migrations") && !(f.path.contains "venv")
    sqlalchemy_models := []
    prisma_schema := fs.filter fun f => fileName f == "schema.prisma"
    rails_migrations := fs.filter fun f =>
      match f.path with
      | [a, b, n] => a == "db" && b == "migrate" && endsWithS n ".rb"
      | _ => false
    knex_migrations := fs.filter fun f =>
      parentSeg f == "migrations" && (endsWithS (fileName f) ".js" || endsWithS (fileName f) ".ts")
    sql_schema := fs.filter fun f => fileName f == "schema.sql" }

/-! ## Model aggregator (extract_schema) -/

/-- Python truthiness of the foreign_key attribute: None and the empty
string are falsy. -/
def truthyFK (f : Field) : Option String :=
  match f.foreign_key with
  | some t => if t = "" then none else some t
  | none => none

/-- Relationship records contributed by one entity, in field order. -/
def relsOfEntity (e : Entity) : List Rel :=
  e.fields.filterMap fun f =>
    (truthyFK f).map fun t =>
      { from_entity := e.name, to_entity := t, type := "1:N", field := f.name }

/-- The relationship loop of extract_schema over all entities. -/
def extractRelationships (entities : List Entity) : List Rel :=
  entities.flatMap relsOfEntity

/-- Parse every file of one dialect in order, concatenating the entity
lists; a file without readable content raises, which aborts the whole
run exactly as an uncaught Python OSError does. -/
def parseAll (p : String → List Entity) : List SrcFile → Except String (List Entity)
  | [] => .ok []
  | f :: rest =>
    match f.content with
    | none => .error ("OSError: " ++ pathStr f.path)
    | some c =>
      match parseAll p rest with
      | .error m => .error m
      | .ok es => .ok (p c ++ es)

/-- The orm_framework value set by extract_schema. -/
def ormOf (sf : SchemaFiles) : Option String :=
  if !sf.prisma_schema.isEmpty then some "Prisma"
  else if !sf.django_models.isEmpty then some "Django ORM"
  else none

/-- extract_schema: locate files, run the Django and then the Prisma
extractor over their file lists, then derive the relationship list. -/
def extract_schema (fs : FileSystem) : Except String SchemaReport :=
  match parseAll parse_django_models (find_schema_files fs).django_models with
  | .error m => .error m
  | .ok e1 =>
    match parseAll parse_prisma_schema (find_schema_files fs).prisma_schema with
    | .error m => .error m
    | .ok e2 =>
      .ok { entities := e1 ++ e2
            relationships := extractRelationships (e1 ++ e2)
            orm_framework := ormOf (find_schema_files fs) }

/-- Exit-code logic of main: run extraction, return 1 when no entities
were extracted, else write the reports and return 0.  Report writing is
local file output with no effect on the result value. -/
def main_exit (fs : FileSystem) : Except String Nat :=
  match extract_schema fs with
  | .error m => .error m
  | .ok report => .ok (if report.entities.isEmpty then 1 else 0)

/-! ## Diagram renderer (generate_mermaid_erd) -/

/-- Python truthiness of the foreign_key value read by the renderer. -/
def fkTruthy (f : Field) : Bool :=
  match f.foreign_key with
  | some t => !(t == "")
  | none => false

/-- Constraint annotations of one field, built in the fixed source
order PK, FK, UK, NOT NULL. -/
def fieldConstraintsPy (f : Field) : List String :=
  (if f.primary_key then ["PK"] else [])
  ++ (if fkTruthy f then ["FK"] else [])
  ++ (if f.unique then ["UK"] else [])
  ++ (if !f.nullable then ["NOT NULL"] else [])

/-- One rendered field line of the entity block. -/
def fieldLine (f : Field) : String :=
  "        " ++ f.type ++ " " ++ f.name ++
    (if (fieldConstraintsPy f).isEmpty then ""
     else " \"" ++ joinWith ", " (fieldConstraintsPy f) ++ "\"")

/-- Suffix of an entity header line, a space and a left brace. -/
def headerSuffix : String := " " ++ String.mk [braceL]

/-- The closing line of an entity block. -/
def blockEndLine : String := "    " ++ String.mk [braceR]

/-- Entity block lines; an entity with no fields emits nothing. -/
def entityBlock (e : Entity) : List String :=
  if e.fields.isEmpty then []
  else ("    " ++ e.name ++ headerSuffix) :: (e.fields.map fieldLine ++ [blockEndLine])

/-- Cardinality token mapping of the renderer, with the one-to-many
token as the fallback. -/
def mermaidRelToken (t : String) : String :=
  if t = "1:1" then "||--||"
  else if t = "1:N" then "||--o" ++ String.mk [braceL]
  else if t = "N:M" then String.mk [braceR] ++ "o--o" ++ String.mk [braceL]
  else "||--o" ++ String.mk [braceL]

/-- One rendered relationship line; an empty via-field label is omitted
by Python truthiness. -/
def relLine (r : Rel) : String :=
  "    " ++ r.from_entity ++ " " ++ mermaidRelToken r.type ++ " " ++ r.to_entity ++
    (if r.field = "" then "" else " : \"" ++ r.field ++ "\"")

/-- The full line sequence of the diagram: header, entity blocks in
entity order, then relationship lines in relationship order. -/
def erdLines (d : SchemaReport) : List String :=
  "erDiagram" :: (d.entities.flatMap entityBlock ++ d.relationships.map relLine)

/-- Python newline join. -/
def joinLines : List String → String
  | [] => ""
  | [x] => x
  | x :: y :: rest => x ++ "\n" ++ joinLines (y :: rest)

/-- generate_mermaid_erd: the joined diagram markup. -/
def generate_mermaid_erd (d : SchemaReport) : String := joinLines (erdLines d)

/-! ## Re-parsing diagram markup

Modelled from the spec: the round-trip testable property re-parses the
entity count and per-entity field counts from the rendered markup.  A
line ending in the header suffix opens a block, the fixed closing line
ends it, and a line indented by eight spaces inside a block is a field
line. -/

/-- Markup lines of a rendered diagram string. -/
def linesOf (s : String) : List String := (splitCh s.data).map String.mk

/-- Block-closing line test. -/
def isEndLn (l : String) : Bool := l == blockEndLine

/-- Block-opening line test. -/
def isHeaderLn (l : String) : Bool := hasPrefixCh headerSuffix.data.reverse l.data.reverse

/-- Field line test: indented by eight spaces. -/
def isFieldLn (l : String) : Bool := hasPrefixCh "        ".data l.data

/-- Fold of the re-parser: the open block field counter and the counts
collected so far. -/
def rpGo : Option Nat → List String → List Nat
  | _, [] => []
  | cur, l :: ls =>
    if isEndLn l then cur.getD 0 :: rpGo none ls
    else if isHeaderLn l then rpGo (some 0) ls
    else if isFieldLn l then rpGo (cur.map (· + 1)) ls
    else rpGo cur ls

/-- Re-parsed per-entity field counts of a rendered diagram; its length
is the re-parsed entity count. -/
def reparseFieldCounts (markup : String) : List Nat := rpGo none (linesOf markup)

/-- Well-formed identifier: non-empty and made of word characters, the
shape every extractor-produced entity and field name has. -/
def isWordStr (s : String) : Bool := !s.data.isEmpty && s.data.all isWordChar

/-- Newline-free string, the shape of every rendered line piece. -/
def noNlS (s : String) : Bool := s.data.all fun c => !(c == '\n')

/-! ## Concrete inputs used by counterexamples and witnesses -/

/-- Django models file declaring a ForeignKey field. -/
def sampleDjangoFK : String :=
  "class Order(models.Model):\n    user = models.ForeignKey(User, on_delete=models.CASCADE)\n"

/-- Django models file with an integer field declared before a string
field, the string field declared twice. -/
def sampleDjangoDup : String :=
  "class P(models.Model):\n    age = models.IntegerField()\n    name = models.CharField(x)\n    name = models.CharField(y)\n"

/-- Prisma schema declaring model Order with a primary key and a
relation field. -/
def samplePrisma : String :=
  "model Order " ++ String.mk [braceL] ++ "\n  id Int @id\n  user User @relation(fields)\n"
    ++ String.mk [braceR] ++ "\n"

/-- Tree with one Prisma schema file. -/
def fsPrisma : FileSystem := [⟨["schema.prisma"], some samplePrisma⟩]

/-- Tree whose only schema file sits inside a vendored directory. -/
def fsVendored : FileSystem := [⟨["node_modules", "schema.prisma"], some samplePrisma⟩]

/-- Tree with one Django models file. -/
def fsDjango : FileSystem := [⟨["app", "models.py"], some sampleDjangoFK⟩]

/-- Tree with an unreadable Django models file followed by a readable
one. -/
def fsBad : FileSystem :=
  [⟨["app", "models.py"], none⟩, ⟨["web", "models.py"], some sampleDjangoFK⟩]

/-- Snapshot with one entity that has no fields. -/
def ghostReport : SchemaReport :=
  { entities := [{ name := "Ghost", table_name := "ghosts" }], relationships := [] }

/-- Snapshot with two populated entities and one relationship. -/
def sampleReport : SchemaReport :=
  { entities :=
      [{ name := "User", table_name := "users"
         fields := [{ name := "id", type := "integer", primary_key := true }] },
       { name := "Order", table_name := "orders"
         fields := [{ name := "id", type := "integer", primary_key := true },
                    { name := "user", type := "foreign_key", foreign_key := some "User" }] }]
    relationships := [{ from_entity := "Order", to_entity := "User", type := "1:N", field := "user" }] }

/-- The report extract_schema produces on fsPrisma. -/
def samplePrismaReport : SchemaReport :=
  { entities :=
      [{ name := "Order", table_name := "order"
         fields := [{ name := "id", type := "Int", nullable := false, primary_key := true },
                    { name := "user", type := "User", nullable := false, foreign_key := some "User" }] }]
    relationships := [{ from_entity := "Order", to_entity := "User", type := "1:N", field := "user" }]
    orm_framework := some "Prisma" }

/-- The report extract_schema produces on an empty tree. -/
def emptyReport : SchemaReport := { entities := [], relationships := [] }

/-- The class match the Django extractor finds in sampleDjangoFK. -/
def cmOrder : ClassMatch :=
  ⟨"Order", "    user = models.ForeignKey(User, on_delete=models.CASCADE)\n"⟩

/-- The model match the Prisma extractor finds in samplePrisma. -/
def mmOrder : ModelMatch :=
  ⟨"Order", "\n  id Int @id\n  user User @relation(fields)\n"⟩

/-- Entity with one foreign-key field, used to instantiate aggregation
statements. -/
def orderEnt : Entity :=
  { name := "Order", table_name := "orders"
    fields := [{ name := "user", type := "User", foreign_key := some "User" }] }

/-- Modelled from the spec: the annotation list of one rendered field as
the spec words it, in the fixed order PK, FK, UK, NOT NULL, where a
field has a foreign key when its target is present. -/
def specAnnots (f : Field) : List String :=
  (if f.primary_key then ["PK"] else [])
  ++ (if f.foreign_key.isSome then ["FK"] else [])
  ++ (if f.unique then ["UK"] else [])
  ++ (if !f.nullable then ["NOT NULL"] else [])

/-- Modelled from the spec: a rendered field line is the type and name
followed by the quoted comma-space-joined annotation, omitted entirely
when no annotation applies. -/
def specFieldLine (f : Field) : String :=
  "        " ++ f.type ++ " " ++ f.name ++
    (if specAnnots f = [] then "" else " \"" ++ joinWith ", " (specAnnots f) ++ "\"")

/-- Decidable equality of Except values, used to evaluate extraction
results on concrete inputs. -/
instance {e a : Type} [DecidableEq e] [DecidableEq a] : DecidableEq (Except e a) := fun x y =>
  match x, y with
  | .error u, .error v =>
    if h : u = v then isTrue (by rw [h]) else isFalse (fun he => by cases he; exact h rfl)
  | .ok u, .ok v =>
    if h : u = v then isTrue (by rw [h]) else isFalse (fun he => by cases he; exact h rfl)
  | .error _, .ok _ => isFalse (fun he => by cases he)
  | .ok _, .error _ => isFalse (fun he => by cases he)

/-! ## General list lemmas -/

theorem flatMap_eq_nil_of {α β : Type} (l : List α) (g : α → List β)
    (h : ∀ a ∈ l, g a = []) : l.flatMap g = [] := by
  induction l with
  | nil => rfl
  | cons x t ih =>
    simp only [List.flatMap_cons, h x (List.mem_cons_self x t),
      List.nil_append]
    exact ih fun a ha => h a (List.mem_cons_of_mem x ha)

theorem filterMap_eq_nil_of {α β : Type} (l : List α) (g : α → Option β)
    (h : ∀ a ∈ l, g a = none) : l.filterMap g = [] := by
  induction l with
  | nil => rfl
  | cons x t ih =>
    rw [List.filterMap_cons, h x (List.mem_cons_self x t)]
    exact ih fun a ha => h a (List.mem_cons_of_mem x ha)

theorem filter_flatMap {α β : Type} (l : List α) (g : α → List β) (p : β → Bool) :
    (l.flatMap g).filter p = l.flatMap fun a => (g a).filter p := by
  induction l with
  | nil => rfl
  | cons x t ih => simp [List.flatMap_cons, List.filter_append, ih]

theorem filter_filterMap {α β : Type} (l : List α) (g : α → Option β) (p : β → Bool) :
    (l.filterMap g).filter p
      = l.filterMap fun a =>
          match g a with
          | some b => if p b then some b else none
          | none => none := by
  induction l with
  | nil => rfl
  | cons x t ih =>
    cases hx : g x with
    | none => simp [List.filterMap_cons, hx, ih]
    | some b =>
      by_cases hb : p b
      · simp [List.filterMap_cons, hx, hb, ih]
      · simp [List.filterMap_cons, hx, hb, ih]

theorem filterMap_single_split {α β : Type} (l1 l2 : List α) (g : α → Option β)
    (a : α) (b : β) (hab : g a = some b)
    (h1 : ∀ x ∈ l1, g x = none) (h2 : ∀ x ∈ l2, g x = none) :
    (l1 ++ a :: l2).filterMap g = [b] := by
  rw [List.filterMap_append, filterMap_eq_nil_of l1 g h1, List.filterMap_cons, hab,
    filterMap_eq_nil_of l2 g h2]
  rfl

theorem flatMap_single_split {α β : Type} (l1 l2 : List α) (g : α → List β)
    (a : α) (h1 : ∀ x ∈ l1, g x = []) (h2 : ∀ x ∈ l2, g x = []) :
    (l1 ++ a :: l2).flatMap g = g a := by
  rw [List.flatMap_append, List.flatMap_cons, flatMap_eq_nil_of l1 g h1,
    flatMap_eq_nil_of l2 g h2]
  simp

theorem length_filterMap_eq_filter {α β : Type} (l : List α) (g : α → Option β)
    (q : α → Bool) (h : ∀ a ∈ l, (g a).isSome = q a) :
    (l.filterMap g).length = (l.filter q).length := by
  induction l with
  | nil => rfl
  | cons x t ih =>
    have hx := h x (List.mem_cons_self x t)
    have ht := fun a ha => h a (List.mem_cons_of_mem x ha)
    cases hgx : g x with
    | none =>
      rw [hgx] at hx
      simp [List.filterMap_cons, hgx, List.filter_cons, ← hx, ih ht]
    | some b =>
      rw [hgx] at hx
      simp [List.filterMap_cons, hgx, List.filter_cons, ← hx, ih ht]

theorem foldl_append_flatMap {α β : Type} (l : List α) (g : α → List β) (acc : List β) :
    l.foldl (fun a x => a ++ g x) acc = acc ++ l.flatMap g := by
  induction l generalizing acc with
  | nil => simp
  | cons x t ih => simp [List.foldl_cons, ih, List.flatMap_cons]

theorem prismaFields_foldl (lines : List String) (acc : List Field) :
    lines.foldl
        (fun a line =>
          match prismaFieldOfLine line with
          | some f => a ++ [f]
          | none => a) acc
      = acc ++ lines.filterMap prismaFieldOfLine := by
  induction lines generalizing acc with
  | nil => simp
  | cons x t ih =>
    cases hx : prismaFieldOfLine x with
    | none => simp [List.foldl_cons, hx, ih, List.filterMap_cons]
    | some b => simp [List.foldl_cons, hx, ih, List.filterMap_cons]

/-! ## Structure of extract_schema results -/

theorem extract_ok_rels {fs : FileSystem} {report : SchemaReport}
    (h : extract_schema fs = .ok report) :
    report.relationships = extractRelationships report.entities := by
  unfold extract_schema at h
  cases h1 : parseAll parse_django_models (find_schema_files fs).django_models with
  | error m => rw [h1] at h; cases h
  | ok e1 =>
    rw [h1] at h
    cases h2 : parseAll parse_prisma_schema (find_schema_files fs).prisma_schema with
    | error m => rw [h2] at h; cases h
    | ok e2 =>
      rw [h2] at h
      injection h with h
      subst h
      rfl

theorem from_of_mem_relsOf {e : Entity} {r : Rel} (h : r ∈ relsOfEntity e) :
    r.from_entity = e.name := by
  unfold relsOfEntity at h
  rw [List.mem_filterMap] at h
  obtain ⟨f, _, hf⟩ := h
  cases htf : truthyFK f with
  | none => rw [htf] at hf; cases hf
  | some t => rw [htf] at hf; cases hf; rfl

theorem type_of_mem_extractRels {es : List Entity} {r : Rel}
    (h : r ∈ extractRelationships es) : r.type = "1:N" := by
  unfold extractRelationships at h
  rw [List.mem_flatMap] at h
  obtain ⟨e, _, hr⟩ := h
  unfold relsOfEntity at hr
  rw [List.mem_filterMap] at hr
  obtain ⟨f, _, hf⟩ := hr
  cases htf : truthyFK f with
  | none => rw [htf] at hf; cases hf
  | some t => rw [htf] at hf; cases hf; rfl

/-! ## Claim C10 -/

/-- C10: every Relationship of a Schema Model produced by extract_schema
has cardinality exactly 1:N; no run yields a one-to-one or many-to-many
relationship, since the relationship loop writes the literal 1:N. -/
theorem claim_C10 (fs : FileSystem) (report : SchemaReport)
    (h : extract_schema fs = .ok report) (r : Rel) (hr : r ∈ report.relationships) :
    r.type = "1:N" := by
  rw [extract_ok_rels h] at hr
  exact type_of_mem_extractRels hr

/-- C10 witness: the relationship extracted from the sample Prisma tree
has cardinality 1:N. -/
theorem claim_C10_witness :
    ({ from_entity := "Order", to_entity := "User", type := "1:N", field := "user" } : Rel).type
      = "1:N" :=
  claim_C10 fsPrisma samplePrismaReport (by decide) _ (by decide)

theorem filter_eq_nil_of {α : Type} (l : List α) (p : α → Bool)
    (h : ∀ a ∈ l, p a = false) : l.filter p = [] := by
  induction l with
  | nil => rfl
  | cons x t ih =>
    rw [List.filter_cons, h x (List.mem_cons_self x t)]
    exact ih fun a ha => h a (List.mem_cons_of_mem x ha)

/-! ## Claim C5 -/

theorem extractRels_length (es : List Entity)
    (hne : ∀ e ∈ es, ∀ f ∈ e.fields, f.foreign_key ≠ some "") :
    (extractRelationships es).length
      = ((es.map fun e => (e.fields.filter fun f => f.foreign_key.isSome).length).sum) := by
  induction es with
  | nil => rfl
  | cons e t ih =>
    have he := hne e (List.mem_cons_self e t)
    have ht := fun x hx => hne x (List.mem_cons_of_mem e hx)
    unfold extractRelationships at ih ⊢
    simp only [List.flatMap_cons, List.length_append, List.map_cons, List.sum_cons]
    rw [ih ht]
    congr 1
    unfold relsOfEntity
    apply length_filterMap_eq_filter
    intro f hf
    cases hfk : f.foreign_key with
    | none => simp [truthyFK, hfk]
    | some t' =>
      have ht' : ¬t' = "" := fun h' => he f hf (by rw [hfk, h'])
      simp [truthyFK, hfk, ht']

/-- C5: in every Schema Model produced by extract_schema, the number of
Relationships equals the number of Fields, across all Entities, whose
foreign_key target is non-null.  The extractors only ever record
non-empty targets, stated here as the hypothesis that no field carries
the empty-string target, under which the Python truthiness test of the
relationship loop coincides with a non-null test. -/
theorem claim_C5 (fs : FileSystem) (report : SchemaReport)
    (h : extract_schema fs = .ok report)
    (hne : ∀ e ∈ report.entities, ∀ f ∈ e.fields, f.foreign_key ≠ some "") :
    report.relationships.length
      = ((report.entities.map fun e =>
            (e.fields.filter fun f => f.foreign_key.isSome).length).sum) := by
  rw [extract_ok_rels h]
  exact extractRels_length report.entities hne

/-- C5 witness: the sample Prisma tree yields one relationship and one
field with a foreign-key target. -/
theorem claim_C5_witness :
    samplePrismaReport.relationships.length
      = ((samplePrismaReport.entities.map fun e =>
            (e.fields.filter fun f => f.foreign_key.isSome).length).sum) :=
  claim_C5 fsPrisma samplePrismaReport (by decide) (by decide)

/-! ## Claim C2 -/

/-- C2 counterexample: a Django source marking field user as a foreign
key to User produces an entity whose field has no recorded target, and
aggregation produces no Relationship at all for it, not exactly one. -/
theorem claim_C2_counterexample :
    parse_django_models sampleDjangoFK
        = [{ name := "Order", table_name := "orders"
             fields := [{ name := "user", type := "foreign_key" }] }]
      ∧ extractRelationships (parse_django_models sampleDjangoFK) = [] :=
  ⟨by decide, by decide⟩

/-- C2 amended: aggregation produces exactly one Relationship, with
cardinality 1:N and via_field the field name, for each field whose
extractor recorded a non-empty foreign-key target (only the Prisma
extractor ever records one), provided entity and field names are
distinct; Django ForeignKey declarations record no target and so yield
no Relationship. -/
theorem claim_C2 (entities : List Entity) (e : Entity) (f : Field) (t : String)
    (he : e ∈ entities) (hf : f ∈ e.fields) (hfk : f.foreign_key = some t) (ht : t ≠ "")
    (hne : (entities.map Entity.name).Nodup) (hnf : (e.fields.map Field.name).Nodup) :
    (extractRelationships entities).filter
        (fun r => r.from_entity == e.name && r.field == f.name)
      = [{ from_entity := e.name, to_entity := t, type := "1:N", field := f.name }] := by
  obtain ⟨l1, l2, hsplit⟩ := List.append_of_mem he
  subst hsplit
  rw [List.map_append, List.map_cons] at hne
  rw [List.nodup_append] at hne
  obtain ⟨-, hne2, hdisj⟩ := hne
  rw [List.nodup_cons] at hne2
  have hname1 : ∀ x ∈ l1, x.name ≠ e.name := by
    intro x hx hxe
    exact hdisj (List.mem_map_of_mem Entity.name hx) (by rw [hxe]; exact List.mem_cons_self _ _)
  have hname2 : ∀ x ∈ l2, x.name ≠ e.name := by
    intro x hx hxe
    exact hne2.1 (hxe ▸ List.mem_map_of_mem Entity.name hx)
  have hkill : ∀ x : Entity, x.name ≠ e.name →
      (relsOfEntity x).filter (fun r => r.from_entity == e.name && r.field == f.name) = [] := by
    intro x hx
    apply filter_eq_nil_of
    intro r hr
    rw [from_of_mem_relsOf hr]
    simp [hx]
  unfold extractRelationships
  rw [filter_flatMap]
  rw [flatMap_single_split l1 l2 _ e
    (fun x hx => hkill x (hname1 x hx)) (fun x hx => hkill x (hname2 x hx))]
  unfold relsOfEntity
  rw [filter_filterMap]
  obtain ⟨m1, m2, hfsplit⟩ := List.append_of_mem hf
  rw [hfsplit] at hnf ⊢
  rw [List.map_append, List.map_cons] at hnf
  rw [List.nodup_append] at hnf
  obtain ⟨-, hnf2, hfdisj⟩ := hnf
  rw [List.nodup_cons] at hnf2
  have hfname1 : ∀ x ∈ m1, x.name ≠ f.name := by
    intro x hx hxe
    exact hfdisj (List.mem_map_of_mem Field.name hx) (by rw [hxe]; exact List.mem_cons_self _ _)
  have hfname2 : ∀ x ∈ m2, x.name ≠ f.name := by
    intro x hx hxe
    exact hnf2.1 (hxe ▸ List.mem_map_of_mem Field.name hx)
  apply filterMap_single_split
  · have htf : truthyFK f = some t := by simp [truthyFK, hfk, ht]
    rw [htf]
    simp
  · intro x hx
    have hxname := hfname1 x hx
    cases htx : truthyFK x with
    | none => rfl
    | some u => simp [hxname]
  · intro x hx
    have hxname := hfname2 x hx
    cases htx : truthyFK x with
    | none => rfl
    | some u => simp [hxname]

/-- C2 witness: an entity Order with field user targeting User yields
exactly the one 1:N relationship with via_field user. -/
theorem claim_C2_witness :
    (extractRelationships [orderEnt]).filter
        (fun r => r.from_entity == orderEnt.name && r.field == "user")
      = [{ from_entity := orderEnt.name, to_entity := "User", type := "1:N", field := "user" }] :=
  claim_C2 [orderEnt] orderEnt { name := "user", type := "User", foreign_key := some "User" }
    "User" (by decide) (by decide) rfl (by decide) (by decide) (by decide)

/-! ## Claim C9 -/

/-- C9: the extract invocation exits 0 exactly when at least one entity
was extracted and 1 exactly when none were, the zero-entity case being
reported as a value, not a raised fault. -/
theorem claim_C9 (fs : FileSystem) (report : SchemaReport)
    (h : extract_schema fs = .ok report) :
    (report.entities ≠ [] → main_exit fs = .ok 0)
    ∧ (report.entities = [] → main_exit fs = .ok 1) := by
  have hmx : main_exit fs = .ok (if report.entities.isEmpty then 1 else 0) := by
    unfold main_exit
    rw [h]
  constructor
  · intro hne
    have hE : report.entities.isEmpty = false := by
      cases hc : report.entities with
      | nil => exact absurd hc hne
      | cons a t => rfl
    rw [hmx, hE]
    rfl
  · intro hnil
    have hE : report.entities.isEmpty = true := by rw [hnil]; rfl
    rw [hmx, hE]
    rfl

/-- C9 witness: the Prisma tree gives exit code 0, the empty tree gives
exit code 1. -/
theorem claim_C9_witness :
    main_exit fsPrisma = .ok 0 ∧ main_exit ([] : FileSystem) = .ok 1 :=
  ⟨(claim_C9 fsPrisma samplePrismaReport (by decide)).1 (by decide),
   (claim_C9 ([] : FileSystem) emptyReport (by decide)).2 rfl⟩

/-! ## Claim C8 -/

theorem parseAll_error_of_unreadable (p : String → List Entity) (files : List SrcFile)
    (hbad : ∃ f ∈ files, f.content = none) :
    ∃ m, parseAll p files = .error m := by
  induction files with
  | nil => obtain ⟨f, hf, -⟩ := hbad; cases hf
  | cons f0 rest ih =>
    obtain ⟨f, hf, hc⟩ := hbad
    cases hc0 : f0.content with
    | none => exact ⟨"OSError: " ++ pathStr f0.path, by simp [parseAll, hc0]⟩
    | some c =>
      have hf' : f ∈ rest := by
        cases List.mem_cons.mp hf with
        | inl hfe => rw [hfe, hc0] at hc; cases hc
        | inr hr => exact hr
      obtain ⟨m, hm⟩ := ih ⟨f, hf', hc⟩
      exact ⟨m, by simp [parseAll, hc0, hm]⟩

theorem parseAll_ok_readable (p : String → List Entity) (files : List SrcFile)
    (es : List Entity) (h : parseAll p files = .ok es) :
    ∀ f ∈ files, f.content ≠ none := by
  induction files generalizing es with
  | nil => intro f hf; cases hf
  | cons f0 rest ih =>
    intro f hf
    cases hc0 : f0.content with
    | none => rw [parseAll, hc0] at h; cases h
    | some c =>
      rw [parseAll, hc0] at h
      cases hrest : parseAll p rest with
      | error m => rw [hrest] at h; cases h
      | ok es' =>
        cases List.mem_cons.mp hf with
        | inl hfe => rw [hfe, hc0]; intro hx; cases hx
        | inr hr => exact ih es' hrest f hr

/-- C8 amended: a schema file that fails to open or decode raises an
error that aborts the whole extraction run; no per-file warning or skip
exists, and entities of the other readable files are not returned. -/
theorem claim_C8 (fs : FileSystem)
    (hbad : ∃ f ∈ (find_schema_files fs).django_models ++ (find_schema_files fs).prisma_schema,
      f.content = none) :
    ∃ m, extract_schema fs = .error m := by
  obtain ⟨f, hf, hc⟩ := hbad
  rw [List.mem_append] at hf
  unfold extract_schema
  cases h1 : parseAll parse_django_models (find_schema_files fs).django_models with
  | error m => exact ⟨m, rfl⟩
  | ok e1 =>
    cases hf with
    | inl hfd => exact absurd hc (parseAll_ok_readable _ _ _ h1 f hfd)
    | inr hfp =>
      obtain ⟨m, hm⟩ :=
        parseAll_error_of_unreadable parse_prisma_schema
          (find_schema_files fs).prisma_schema ⟨f, hfp, hc⟩
      rw [hm]
      exact ⟨m, rfl⟩

/-- C8 witness: the tree with an unreadable models file aborts with an
error. -/
theorem claim_C8_witness : ∃ m, extract_schema fsBad = .error m :=
  claim_C8 fsBad ⟨⟨["app", "models.py"], none⟩, by decide, rfl⟩

/-- C8 counterexample: with one unreadable and one readable models file
the run aborts with the OSError of the unreadable file and returns no
entities, although the readable file alone yields an entity; the claimed
warn-and-continue behavior does not exist. -/
theorem claim_C8_counterexample :
    extract_schema fsBad = .error "OSError: app/models.py"
    ∧ parse_django_models sampleDjangoFK ≠ [] :=
  ⟨by decide, by decide⟩

/-! ## Claim C1 -/

/-- C1 amended: only the Django rule of find_schema_files excludes any
directory segment, and it excludes exactly migrations and venv; every
other dialect rule, here the Prisma rule, applies no vendored-directory
exclusion at all. -/
theorem claim_C1 (fs : FileSystem) (f : SrcFile) :
    (f ∈ (find_schema_files fs).django_models →
      f.path.contains "venv" = false ∧ f.path.contains "migrations" = false)
    ∧ (f ∈ fs → fileName f = "schema.prisma" → f ∈ (find_schema_files fs).prisma_schema) := by
  constructor
  · intro hf
    unfold find_schema_files at hf
    rw [List.mem_filter] at hf
    obtain ⟨-, hcond⟩ := hf
    simp only [Bool.and_eq_true, Bool.not_eq_true'] at hcond
    exact ⟨hcond.2, hcond.1.2⟩
  · intro hin hname
    unfold find_schema_files
    rw [List.mem_filter]
    exact ⟨hin, by simp [hname]⟩

/-- C1 witness: a models file outside any vendored directory is found by
the Django rule with a venv-free path, and a schema.prisma file in the
tree is found by the Prisma rule. -/
theorem claim_C1_witness :
    ((⟨["app", "models.py"], some sampleDjangoFK⟩ : SrcFile).path.contains "venv" = false)
    ∧ (⟨["schema.prisma"], some samplePrisma⟩ : SrcFile)
        ∈ (find_schema_files fsPrisma).prisma_schema :=
  ⟨((claim_C1 fsDjango ⟨["app", "models.py"], some sampleDjangoFK⟩).1 (by decide)).1,
   (claim_C1 fsPrisma ⟨["schema.prisma"], some samplePrisma⟩).2 (by decide) (by decide)⟩

/-- C1 counterexample: a schema.prisma below node_modules is returned by
find_schema_files even though its path contains a vendoring segment. -/
theorem claim_C1_counterexample :
    ((find_schema_files fsVendored).prisma_schema.map fun f => f.path.contains "node_modules")
      = [true] := by decide

/-! ## Claim C3 -/

/-- C3 counterexample: the Prisma extractor resolves the storage name of
model Order to order, not orders; only the Django extractor appends the
suffix s. -/
theorem claim_C3_counterexample :
    (parse_prisma_schema samplePrisma).map (fun e => (e.name, e.table_name))
        = [("Order", "order")]
    ∧ ("order" : String) ≠ "orders" :=
  ⟨by decide, by decide⟩

/-- C3 amended: without an explicit storage-name override the Django
extractor resolves the storage name to the lower-cased class name with
suffix s, while the Prisma extractor always resolves it to the
lower-cased model name with no suffix (it parses no override at all). -/
theorem claim_C3 :
    (∀ content : String, ∀ cm ∈ classMatches content,
        reSearch metaPattern cm.body = none →
        (djangoEntity cm).table_name = pyLower cm.name ++ "s")
    ∧ (∀ content : String, ∀ e ∈ parse_prisma_schema content,
        e.table_name = pyLower e.name) := by
  constructor
  · intro content cm hcm hnone
    show djangoTableName cm.name cm.body = pyLower cm.name ++ "s"
    unfold djangoTableName
    rw [hnone]
  · intro content e he
    unfold parse_prisma_schema at he
    rw [List.mem_map] at he
    obtain ⟨mm, -, rfl⟩ := he
    rfl

/-- C3 witness: the class Order of the sample Django file has no Meta
override and resolves to orders; the Prisma model Order resolves to the
plain lower-cased name. -/
theorem claim_C3_witness :
    (djangoEntity cmOrder).table_name = pyLower cmOrder.name ++ "s"
    ∧ (prismaEntity mmOrder).table_name = pyLower (prismaEntity mmOrder).name :=
  ⟨claim_C3.1 sampleDjangoFK cmOrder (by decide) (by decide),
   claim_C3.2 samplePrisma (prismaEntity mmOrder) (by decide)⟩

/-! ## Claim C4 -/

/-- C4 counterexample: in a Django class declaring age before name, the
extracted field list is name, name, age: fields are grouped by the fixed
pattern-type order, not declaration order, and the twice-declared name
field appears twice. -/
theorem claim_C4_counterexample :
    ((parse_django_models sampleDjangoDup).map fun e => e.fields.map Field.name)
        = [["name", "name", "age"]]
    ∧ subIdxS sampleDjangoDup "age" = some 27
    ∧ subIdxS sampleDjangoDup "name" = some 59 :=
  ⟨by decide, by decide, by decide⟩

/-- C4 amended: the Django extractor emits the fields of an entity
grouped by its fixed pattern table, in the order string, text, integer,
boolean, datetime, date, foreign_key, each group in scan order, rather
than in declaration order; the Prisma extractor emits fields in source
line order; neither extractor rejects duplicate field names. -/
theorem claim_C4 :
    (∀ body : String,
        djangoFields body
          = field_patterns.flatMap
              fun pt => (reFinditer pt.1 body).map (djangoFieldOfMatch pt.2))
    ∧ (∀ pt ∈ field_patterns, ∀ m : MatchRes, (djangoFieldOfMatch pt.2 m).type = pt.2)
    ∧ (∀ body : String,
        prismaFields body = (splitNl (pstrip body)).filterMap prismaFieldOfLine) := by
  refine ⟨?_, ?_, ?_⟩
  · intro body
    unfold djangoFields
    rw [foldl_append_flatMap]
    exact List.nil_append _
  · intro pt hpt m
    rfl
  · intro body
    unfold prismaFields
    exact (prismaFields_foldl (splitNl (pstrip body)) []).trans (List.nil_append _)

/-- C4 witness: the decompositions instantiated on the sample class and
model bodies, and the pattern table typing one concrete match. -/
theorem claim_C4_witness :
    (djangoFields cmOrder.body
        = field_patterns.flatMap
            fun pt => (reFinditer pt.1 cmOrder.body).map (djangoFieldOfMatch pt.2))
    ∧ (djangoFieldOfMatch "string" ⟨"x", []⟩).type = "string"
    ∧ prismaFields mmOrder.body = (splitNl (pstrip mmOrder.body)).filterMap prismaFieldOfLine :=
  ⟨claim_C4.1 cmOrder.body,
   claim_C4.2.1 (djangoFieldRe "CharField", "string")
     (by unfold field_patterns; exact List.mem_cons_self _ _) ⟨"x", []⟩,
   claim_C4.2.2 mmOrder.body⟩

/-! ## Claim C6 -/

/-- C6: every rendered field line is the type and name followed by the
quoted annotation listing PK, FK, UK, NOT NULL in this fixed order,
joined by comma-space, and omitted entirely when none apply; stated as
agreement with the spec-side line format, under the hypothesis that a
foreign-key target is never the empty string (the renderer tests Python
truthiness, the spec presence).  The two scenario lines of the spec are
included. -/
theorem claim_C6 (f : Field) (hfk : f.foreign_key ≠ some "") :
    fieldLine f = specFieldLine f
    ∧ fieldLine { name := "id", type := "integer", primary_key := true }
        = "        integer id \"PK\""
    ∧ fieldLine { name := "email", type := "string", nullable := false, unique := true }
        = "        string email \"UK, NOT NULL\"" := by
  refine ⟨?_, by decide, by decide⟩
  have hc : fieldConstraintsPy f = specAnnots f := by
    unfold fieldConstraintsPy specAnnots
    have hft : fkTruthy f = f.foreign_key.isSome := by
      unfold fkTruthy
      cases hx : f.foreign_key with
      | none => rfl
      | some u =>
        have hu : ¬u = "" := fun h' => hfk (by rw [hx, h'])
        simp [hu]
    rw [hft]
  unfold fieldLine specFieldLine
  rw [hc]
  cases hn : specAnnots f with
  | nil => rfl
  | cons a t => simp

/-- C6 witness: the unique, not-null string field of the spec scenario
renders exactly as the spec-side format says. -/
theorem claim_C6_witness :
    fieldLine { name := "email", type := "string", nullable := false, unique := true }
      = specFieldLine { name := "email", type := "string", nullable := false, unique := true } :=
  (claim_C6 { name := "email", type := "string", nullable := false, unique := true }
    (by decide)).1

/-! ## Claim C7: split and join of markup lines -/

theorem mk_data (s : String) : String.mk s.data = s := String.ext rfl

theorem splitCh_append_nl (l1 rest : List Char)
    (h : (l1.all fun c => !(c == '\n')) = true) :
    splitCh (l1 ++ '\n' :: rest) = l1 :: splitCh rest := by
  induction l1 with
  | nil => simp [splitCh]
  | cons c t ih =>
    rw [List.all_cons, Bool.and_eq_true] at h
    obtain ⟨hc, ht⟩ := h
    rw [Bool.not_eq_true'] at hc
    rw [List.cons_append]
    rw [splitCh, hc]
    simp only [ih ht]
    rfl

theorem splitCh_no_nl (l : List Char) (h : (l.all fun c => !(c == '\n')) = true) :
    splitCh l = [l] := by
  induction l with
  | nil => rfl
  | cons c t ih =>
    rw [List.all_cons, Bool.and_eq_true] at h
    obtain ⟨hc, ht⟩ := h
    rw [Bool.not_eq_true'] at hc
    rw [splitCh, hc]
    simp only [ih ht]
    rfl

theorem linesOf_joinLines (L : List String) (hL : L ≠ [])
    (h : ∀ l ∈ L, noNlS l = true) : linesOf (joinLines L) = L := by
  induction L with
  | nil => exact absurd rfl hL
  | cons x t ih =>
    cases t with
    | nil =>
      show linesOf x = [x]
      unfold linesOf
      rw [splitCh_no_nl x.data (h x (List.mem_cons_self _ _))]
      simp [mk_data]
    | cons y rest =>
      have hx := h x (List.mem_cons_self _ _)
      have hdata : (joinLines (x :: y :: rest)).data
          = x.data ++ '\n' :: (joinLines (y :: rest)).data := by
        show ((x ++ "\n") ++ joinLines (y :: rest)).data = _
        simp [String.data_append]
      unfold linesOf
      rw [hdata, splitCh_append_nl x.data _ hx]
      rw [List.map_cons, mk_data]
      have ht := ih (by intro hc; cases hc) (fun l hl => h l (List.mem_cons_of_mem x hl))
      unfold linesOf at ht
      rw [ht]

/-! ## Claim C7: character and line classification -/

theorem word_ne_of {c d : Char} (h : isWordChar c = true) (hd : isWordChar d = false) :
    (c == d) = false := by
  cases hb : (c == d)
  · rfl
  · rw [eq_of_beq hb] at h
    rw [h] at hd
    cases hd

theorem ne_word_of {c d : Char} (h : isWordChar c = true) (hd : isWordChar d = false) :
    (d == c) = false := by
  cases hb : (d == c)
  · rfl
  · rw [← eq_of_beq hb] at h
    rw [h] at hd
    cases hd

theorem isWordStr_spec {s : String} (h : isWordStr s = true) :
    s.data ≠ [] ∧ ∀ c ∈ s.data, isWordChar c = true := by
  unfold isWordStr at h
  rw [Bool.and_eq_true] at h
  obtain ⟨h1, h2⟩ := h
  refine ⟨?_, fun c hc => List.all_eq_true.mp h2 c hc⟩
  intro hnil
  rw [hnil] at h1
  exact absurd h1 (by decide)

theorem wordStr_last {s : String} (h : isWordStr s = true) :
    ∃ c cs, s.data.reverse = c :: cs ∧ isWordChar c = true := by
  obtain ⟨hne, hall⟩ := isWordStr_spec h
  cases hr : s.data.reverse with
  | nil =>
    rw [List.reverse_eq_nil_iff] at hr
    exact absurd hr hne
  | cons c cs =>
    refine ⟨c, cs, rfl, hall c ?_⟩
    rw [← List.mem_reverse, hr]
    exact List.mem_cons_self _ _

theorem wordStr_head {s : String} (h : isWordStr s = true) :
    ∃ c cs, s.data = c :: cs ∧ isWordChar c = true := by
  obtain ⟨hne, hall⟩ := isWordStr_spec h
  cases hr : s.data with
  | nil => exact absurd hr hne
  | cons c cs =>
    exact ⟨c, cs, rfl, hall c (by rw [hr]; exact List.mem_cons_self _ _)⟩

theorem isEndLn_false_of_last {l : String} {c : Char} {rest : List Char}
    (h : l.data.reverse = c :: rest) (hc : (c == braceR) = false) :
    isEndLn l = false := by
  cases hEnd : isEndLn l
  · rfl
  · have hl : l = blockEndLine := eq_of_beq hEnd
    subst hl
    rw [show blockEndLine.data.reverse = braceR :: [' ', ' ', ' ', ' '] from rfl] at h
    injection h with h1 h2
    rw [← h1] at hc
    simp at hc

theorem isHeaderLn_false_of_last {l : String} {c : Char} {rest : List Char}
    (h : l.data.reverse = c :: rest) (hc : (braceL == c) = false) :
    isHeaderLn l = false := by
  unfold isHeaderLn
  rw [show headerSuffix.data.reverse = [braceL, ' '] from rfl, h]
  rw [hasPrefixCh, hc]
  rfl

theorem hasPrefixCh_self_append (p r : List Char) : hasPrefixCh p (p ++ r) = true := by
  induction p with
  | nil => rfl
  | cons c t ih => simp [hasPrefixCh, ih]

theorem isHeaderLn_header (pre name : String) :
    isHeaderLn (pre ++ name ++ headerSuffix) = true := by
  unfold isHeaderLn
  rw [show (pre ++ name ++ headerSuffix).data.reverse
      = headerSuffix.data.reverse ++ (name.data.reverse ++ pre.data.reverse) by
    simp [String.data_append, List.reverse_append]]
  exact hasPrefixCh_self_append _ _

theorem header_reverse (name : String) :
    ("    " ++ name ++ headerSuffix).data.reverse
      = braceL :: ' ' :: (name.data.reverse ++ [' ', ' ', ' ', ' ']) := by
  simp [String.data_append, List.reverse_append, headerSuffix]

theorem isFieldLn_false_of_data {l : String} {c : Char} {cs : List Char}
    (hl : l.data = ' ' :: ' ' :: ' ' :: ' ' :: c :: cs) (hc : isWordChar c = true) :
    isFieldLn l = false := by
  unfold isFieldLn
  rw [hl]
  rw [show ("        " : String).data
      = [' ', ' ', ' ', ' ', ' ', ' ', ' ', ' '] from rfl]
  simp only [hasPrefixCh]
  rw [ne_word_of hc (by decide)]
  simp

theorem isFieldLn_fieldLine (f : Field) : isFieldLn (fieldLine f) = true := by
  unfold isFieldLn
  have hd : (fieldLine f).data
      = ("        " : String).data
        ++ (f.type.data ++ (" " : String).data ++ f.name.data
          ++ (if (fieldConstraintsPy f).isEmpty then ""
              else " \"" ++ joinWith ", " (fieldConstraintsPy f) ++ "\"").data) := by
    unfold fieldLine
    simp [String.data_append, List.append_assoc]
  rw [hd]
  exact hasPrefixCh_self_append _ _

theorem fieldLine_last (f : Field) (hname : isWordStr f.name = true) :
    ∃ c rest, (fieldLine f).data.reverse = c :: rest
      ∧ (c == braceR) = false ∧ (braceL == c) = false := by
  by_cases hE : (fieldConstraintsPy f).isEmpty = true
  · obtain ⟨c, cs, hrev, hw⟩ := wordStr_last hname
    have hd : (fieldLine f).data.reverse
        = f.name.data.reverse
          ++ ((" " : String).data.reverse
            ++ (f.type.data.reverse ++ ("        " : String).data.reverse)) := by
      unfold fieldLine
      rw [if_pos hE]
      simp [String.data_append, List.reverse_append]
    rw [hrev, List.cons_append] at hd
    exact ⟨c, _, hd, word_ne_of hw (by decide), ne_word_of hw (by decide)⟩
  · have hd : (fieldLine f).data.reverse
        = '"' :: ((joinWith ", " (fieldConstraintsPy f)).data.reverse
          ++ ((" \"" : String).data.reverse
            ++ (f.name.data.reverse
              ++ ((" " : String).data.reverse
                ++ (f.type.data.reverse ++ ("        " : String).data.reverse))))) := by
      unfold fieldLine
      rw [if_neg hE]
      simp [String.data_append, List.reverse_append]
    exact ⟨'"', _, hd, by decide, by decide⟩

theorem relLine_last (r : Rel) (hto : isWordStr r.to_entity = true) :
    ∃ c rest, (relLine r).data.reverse = c :: rest
      ∧ (c == braceR) = false ∧ (braceL == c) = false := by
  by_cases hf : r.field = ""
  · obtain ⟨c, cs, hrev, hw⟩ := wordStr_last hto
    have hd : (relLine r).data.reverse
        = r.to_entity.data.reverse
          ++ ((" " : String).data.reverse
            ++ ((mermaidRelToken r.type).data.reverse
              ++ ((" " : String).data.reverse
                ++ (r.from_entity.data.reverse ++ ("    " : String).data.reverse)))) := by
      unfold relLine
      rw [if_pos hf]
      simp [String.data_append, List.reverse_append]
    rw [hrev, List.cons_append] at hd
    exact ⟨c, _, hd, word_ne_of hw (by decide), ne_word_of hw (by decide)⟩
  · have hd : (relLine r).data.reverse
        = '"' :: (r.field.data.reverse
          ++ ((" : \"" : String).data.reverse
            ++ (r.to_entity.data.reverse
              ++ ((" " : String).data.reverse
                ++ ((mermaidRelToken r.type).data.reverse
                  ++ ((" " : String).data.reverse
                    ++ (r.from_entity.data.reverse
                      ++ ("    " : String).data.reverse))))))) := by
      unfold relLine
      rw [if_neg hf]
      simp [String.data_append, List.reverse_append]
    exact ⟨'"', _, hd, by decide, by decide⟩

theorem relLine_head (r : Rel) (hfrom : isWordStr r.from_entity = true) :
    ∃ c cs, (relLine r).data = ' ' :: ' ' :: ' ' :: ' ' :: c :: cs ∧ isWordChar c = true := by
  obtain ⟨c, cs, hdat, hw⟩ := wordStr_head hfrom
  have hd : (relLine r).data
      = ' ' :: ' ' :: ' ' :: ' ' :: c :: (cs
        ++ ((" " : String).data ++ ((mermaidRelToken r.type).data
          ++ ((" " : String).data ++ (r.to_entity.data
            ++ (if r.field = "" then ""
                else " : \"" ++ r.field ++ "\"").data))))) := by
    unfold relLine
    rw [show ("    " : String) = String.mk [' ', ' ', ' ', ' '] from rfl]
    simp [String.data_append, List.append_assoc, hdat]
  exact ⟨c, _, hd, hw⟩

/-! ## Claim C7: stepping the re-parser over rendered lines -/

theorem rpGo_skip (cur : Option Nat) (l : String) (ls : List String)
    (h1 : isEndLn l = false) (h2 : isHeaderLn l = false) (h3 : isFieldLn l = false) :
    rpGo cur (l :: ls) = rpGo cur ls := by
  simp [rpGo, h1, h2, h3]

theorem rpGo_field (cur : Option Nat) (l : String) (ls : List String)
    (h1 : isEndLn l = false) (h2 : isHeaderLn l = false) (h3 : isFieldLn l = true) :
    rpGo cur (l :: ls) = rpGo (cur.map (· + 1)) ls := by
  simp [rpGo, h1, h2, h3]

theorem rpGo_header_step (cur : Option Nat) (l : String) (ls : List String)
    (h1 : isEndLn l = false) (h2 : isHeaderLn l = true) :
    rpGo cur (l :: ls) = rpGo (some 0) ls := by
  simp [rpGo, h1, h2]

theorem rpGo_end (cur : Option Nat) (ls : List String) :
    rpGo cur (blockEndLine :: ls) = cur.getD 0 :: rpGo none ls := by
  simp [rpGo, isEndLn]

theorem rpGo_fields (fl : List Field) (hw : ∀ f ∈ fl, isWordStr f.name = true)
    (k : Nat) (rest : List String) :
    rpGo (some k) (fl.map fieldLine ++ (blockEndLine :: rest))
      = (k + fl.length) :: rpGo none rest := by
  induction fl generalizing k with
  | nil => simp [rpGo_end]
  | cons f t ih =>
    have hf := hw f (List.mem_cons_self _ _)
    obtain ⟨c, cr, hrev, hc1, hc2⟩ := fieldLine_last f hf
    rw [List.map_cons, List.cons_append]
    rw [rpGo_field _ _ _ (isEndLn_false_of_last hrev hc1)
      (isHeaderLn_false_of_last hrev hc2) (isFieldLn_fieldLine f)]
    rw [show (some k).map (· + 1) = some (k + 1) from rfl]
    rw [ih (fun x hx => hw x (List.mem_cons_of_mem f hx)) (k + 1)]
    congr 1
    simp only [List.length_cons]
    omega

theorem rpGo_entityBlock (e : Entity) (hfe : e.fields ≠ [])
    (_hname : isWordStr e.name = true) (hw : ∀ f ∈ e.fields, isWordStr f.name = true)
    (rest : List String) :
    rpGo none (entityBlock e ++ rest) = e.fields.length :: rpGo none rest := by
  have hEmp : e.fields.isEmpty = false := by
    cases hc : e.fields with
    | nil => exact absurd hc hfe
    | cons a t => rfl
  unfold entityBlock
  rw [hEmp]
  simp only [Bool.false_eq_true, if_false, List.cons_append, List.append_assoc,
    List.singleton_append, List.nil_append]
  rw [rpGo_header_step _ _ _
    (isEndLn_false_of_last (header_reverse e.name) (by decide))
    (isHeaderLn_header "    " e.name)]
  rw [rpGo_fields e.fields hw 0 rest]
  rw [Nat.zero_add]

theorem rpGo_relLines (rl : List Rel)
    (hw : ∀ r ∈ rl, isWordStr r.from_entity = true ∧ isWordStr r.to_entity = true) :
    rpGo none (rl.map relLine) = [] := by
  induction rl with
  | nil => rfl
  | cons r t ih =>
    obtain ⟨hf, hto⟩ := hw r (List.mem_cons_self _ _)
    obtain ⟨c, cr, hrev, hc1, hc2⟩ := relLine_last r hto
    obtain ⟨ch, cs, hdat, hwch⟩ := relLine_head r hf
    rw [List.map_cons]
    rw [rpGo_skip _ _ _ (isEndLn_false_of_last hrev hc1)
      (isHeaderLn_false_of_last hrev hc2) (isFieldLn_false_of_data hdat hwch)]
    exact ih fun x hx => hw x (List.mem_cons_of_mem r hx)

theorem rpGo_blocks (es : List Entity) (rl : List Rel)
    (hE : ∀ e ∈ es, isWordStr e.name = true ∧ e.fields ≠ []
      ∧ ∀ f ∈ e.fields, isWordStr f.name = true)
    (hR : ∀ r ∈ rl, isWordStr r.from_entity = true ∧ isWordStr r.to_entity = true) :
    rpGo none (es.flatMap entityBlock ++ rl.map relLine)
      = es.map fun e => e.fields.length := by
  induction es with
  | nil => simp [rpGo_relLines rl hR]
  | cons e t ih =>
    obtain ⟨h1, h2, h3⟩ := hE e (List.mem_cons_self _ _)
    rw [List.flatMap_cons, List.append_assoc]
    rw [rpGo_entityBlock e h2 h1 h3]
    rw [ih fun x hx => hE x (List.mem_cons_of_mem e hx)]
    rfl

/-! ## Claim C7: rendered lines are newline-free -/

theorem noNlS_append (a b : String) : noNlS (a ++ b) = (noNlS a && noNlS b) := by
  unfold noNlS
  rw [String.data_append, List.all_append]

theorem noNlS_of_word {s : String} (h : isWordStr s = true) : noNlS s = true := by
  obtain ⟨-, hall⟩ := isWordStr_spec h
  unfold noNlS
  rw [List.all_eq_true]
  intro c hc
  rw [word_ne_of (hall c hc) (by decide)]
  rfl

theorem noNlS_joinWith (l : List String) (h : ∀ x ∈ l, noNlS x = true) :
    noNlS (joinWith ", " l) = true := by
  induction l with
  | nil => decide
  | cons x t ih =>
    cases t with
    | nil => exact h x (List.mem_cons_self _ _)
    | cons y r =>
      rw [joinWith, noNlS_append, noNlS_append]
      rw [h x (List.mem_cons_self _ _), ih fun z hz => h z (List.mem_cons_of_mem x hz)]
      decide

theorem mem_if_singleton {x s : String} {b : Bool}
    (h : x ∈ (if b then [s] else ([] : List String))) : x = s := by
  cases b
  · simp at h
  · simp at h
    exact h

theorem noNlS_constraints (f : Field) : ∀ x ∈ fieldConstraintsPy f, noNlS x = true := by
  intro x hx
  unfold fieldConstraintsPy at hx
  rcases List.mem_append.mp hx with hx' | hx'
  · rcases List.mem_append.mp hx' with hx'' | hx''
    · rcases List.mem_append.mp hx'' with hx3 | hx3
      · rw [mem_if_singleton hx3]; decide
      · rw [mem_if_singleton hx3]; decide
    · rw [mem_if_singleton hx'']; decide
  · rw [mem_if_singleton hx']; decide

theorem noNlS_fieldLine (f : Field) (hn : isWordStr f.name = true)
    (ht : isWordStr f.type = true) : noNlS (fieldLine f) = true := by
  unfold fieldLine
  rw [noNlS_append, noNlS_append, noNlS_append, noNlS_append]
  rw [noNlS_of_word hn, noNlS_of_word ht]
  have htail : noNlS (if (fieldConstraintsPy f).isEmpty then ""
      else " \"" ++ joinWith ", " (fieldConstraintsPy f) ++ "\"") = true := by
    by_cases hE : (fieldConstraintsPy f).isEmpty = true
    · rw [if_pos hE]
      decide
    · rw [if_neg hE, noNlS_append, noNlS_append]
      rw [noNlS_joinWith _ (noNlS_constraints f)]
      decide
  rw [htail]
  decide

theorem noNlS_token (t : String) : noNlS (mermaidRelToken t) = true := by
  unfold mermaidRelToken
  by_cases h1 : t = "1:1"
  · rw [if_pos h1]; decide
  · rw [if_neg h1]
    by_cases h2 : t = "1:N"
    · rw [if_pos h2]; decide
    · rw [if_neg h2]
      by_cases h3 : t = "N:M"
      · rw [if_pos h3]; decide
      · rw [if_neg h3]; decide

theorem noNlS_relLine (r : Rel) (hf : isWordStr r.from_entity = true)
    (hto : isWordStr r.to_entity = true) (hfld : noNlS r.field = true) :
    noNlS (relLine r) = true := by
  unfold relLine
  rw [noNlS_append, noNlS_append, noNlS_append, noNlS_append, noNlS_append, noNlS_append]
  rw [noNlS_of_word hf, noNlS_of_word hto, noNlS_token]
  have htail : noNlS (if r.field = "" then "" else " : \"" ++ r.field ++ "\"") = true := by
    by_cases hE : r.field = ""
    · rw [if_pos hE]
      decide
    · rw [if_neg hE, noNlS_append, noNlS_append, hfld]
      decide
  rw [htail]
  decide

theorem noNlS_header (name : String) (h : isWordStr name = true) :
    noNlS ("    " ++ name ++ headerSuffix) = true := by
  rw [noNlS_append, noNlS_append, noNlS_of_word h]
  decide

theorem erdLines_noNl (d : SchemaReport)
    (hE : ∀ e ∈ d.entities, isWordStr e.name = true ∧ e.fields ≠ []
      ∧ ∀ f ∈ e.fields, isWordStr f.name = true ∧ isWordStr f.type = true)
    (hR : ∀ r ∈ d.relationships, isWordStr r.from_entity = true
      ∧ isWordStr r.to_entity = true ∧ noNlS r.field = true) :
    ∀ l ∈ erdLines d, noNlS l = true := by
  intro l hl
  unfold erdLines at hl
  rcases List.mem_cons.mp hl with rfl | hl2
  · decide
  · rcases List.mem_append.mp hl2 with hb | hr
    · rw [List.mem_flatMap] at hb
      obtain ⟨e, he, hbl⟩ := hb
      obtain ⟨hn, hfe, hflds⟩ := hE e he
      unfold entityBlock at hbl
      have hEmp : e.fields.isEmpty = false := by
        cases hc : e.fields with
        | nil => exact absurd hc hfe
        | cons a t => rfl
      rw [hEmp] at hbl
      simp only [Bool.false_eq_true, if_false] at hbl
      rcases List.mem_cons.mp hbl with rfl | hbl2
      · exact noNlS_header e.name hn
      · rcases List.mem_append.mp hbl2 with hbf | hbe
        · obtain ⟨f, hfm, rfl⟩ := List.mem_map.mp hbf
          exact noNlS_fieldLine f (hflds f hfm).1 (hflds f hfm).2
        · rw [List.mem_singleton.mp hbe]
          decide
    · obtain ⟨r, hrm, rfl⟩ := List.mem_map.mp hr
      obtain ⟨h1, h2, h3⟩ := hR r hrm
      exact noNlS_relLine r h1 h2 h3

/-! ## Claim C7 -/

/-- C7 counterexample: a snapshot with one zero-field entity renders to
markup with no entity block, so the re-parsed entity count is 0 while
the snapshot has 1 entity. -/
theorem claim_C7_counterexample :
    reparseFieldCounts (generate_mermaid_erd ghostReport) = []
    ∧ ghostReport.entities.length = 1 :=
  ⟨by decide, by decide⟩

/-- C7 amended: for every snapshot whose entities all carry at least one
field, whose entity, field and relationship endpoint names are
word-shaped identifiers (as all extractor-produced names are) and whose
relationship labels are newline-free, re-parsing the rendered markup
recovers exactly the per-entity field counts and hence the entity count;
an entity with zero fields is omitted from the markup, so its count is
not recoverable. -/
theorem claim_C7 (d : SchemaReport)
    (hE : ∀ e ∈ d.entities, isWordStr e.name = true ∧ e.fields ≠ []
      ∧ ∀ f ∈ e.fields, isWordStr f.name = true ∧ isWordStr f.type = true)
    (hR : ∀ r ∈ d.relationships, isWordStr r.from_entity = true
      ∧ isWordStr r.to_entity = true ∧ noNlS r.field = true) :
    reparseFieldCounts (generate_mermaid_erd d)
        = d.entities.map (fun e => e.fields.length)
    ∧ (reparseFieldCounts (generate_mermaid_erd d)).length = d.entities.length := by
  have hlines : linesOf (generate_mermaid_erd d) = erdLines d := by
    apply linesOf_joinLines
    · unfold erdLines
      intro hc
      cases hc
    · exact erdLines_noNl d hE hR
  have hmain : reparseFieldCounts (generate_mermaid_erd d)
      = d.entities.map fun e => e.fields.length := by
    unfold reparseFieldCounts
    rw [hlines]
    unfold erdLines
    rw [rpGo_skip _ _ _ (by decide) (by decide) (by decide)]
    exact rpGo_blocks d.entities d.relationships
      (fun e he => ⟨(hE e he).1, (hE e he).2.1, fun f hf => ((hE e he).2.2 f hf).1⟩)
      (fun r hr => ⟨(hR r hr).1, (hR r hr).2.1⟩)
  refine ⟨hmain, ?_⟩
  rw [hmain]
  exact List.length_map _ _

/-- C7 witness: the two-entity sample snapshot re-parses to field counts
1 and 2, matching its entities. -/
theorem claim_C7_witness :
    reparseFieldCounts (generate_mermaid_erd sampleReport)
        = sampleReport.entities.map (fun e => e.fields.length)
    ∧ (reparseFieldCounts (generate_mermaid_erd sampleReport)).length
        = sampleReport.entities.length :=
  claim_C7 sampleReport (by decide) (by decide)

end Erd
